import Mathlib

/-!
Shallow embedding of `src/sampleCodes/rust.rs` (stinbox/zenn-shiki-theme):
the `Status` enum with its `process_status` classification and `Display`
rendering, the `User` record type, and the `Repository` / `InMemoryRepository`
store backed by the process-wide `GLOBAL_COUNTER` identity allocator.

Machine integers are modelled as `Nat` / `Int`: `progress : u8` carries the
side condition `p ≤ 255` where a claim depends on the u8 range, `code : i32`
becomes `Int`, and the `usize` counter becomes `Nat` (no arithmetic in the
embedded fragment can overflow below the representable maxima, which the
spec explicitly leaves unhandled).
-/

namespace RustSample

/-- `pub enum Status` from the source: four variants with payloads
`Running { progress: u8 }`, `Completed(String)`, `Failed { code: i32, message:
String }`. `u8` is modelled as `Nat` (range side conditions stated where
relevant), `i32` as `Int`. -/
inductive Status where
  | Pending : Status
  | Running (progress : Nat) : Status
  | Completed (msg : String) : Status
  | Failed (code : Int) (message : String) : Status
deriving DecidableEq, Repr

/-- `fn process_status(status: Status) -> &'static str`: a guarded match.
The Rust guard `if progress > 50` on the `Running` arm and `if code < 0`
on the `Failed` arm are embedded as `if` inside the variant case, which is
semantically the fall-through order of the source match. -/
def process_status : Status → String
  | Status.Pending => "waiting"
  | Status.Running progress =>
      if progress > 50 then "almost done" else "in progress"
  | Status.Completed _ => "done"
  | Status.Failed code _ =>
      if code < 0 then "critical error" else "error"

/-- `impl Display for Status`: the `write!` format strings of the source,
with `{}` interpolation of `u8` / `i32` / `String` payloads rendered via
`toString` (decimal, `-` sign for negative `i32`, exactly as Rust's
`Display` for integers). -/
def statusDisplay : Status → String
  | Status.Pending => "Pending"
  | Status.Running progress => "Running: " ++ toString progress ++ "%"
  | Status.Completed msg => "Completed: " ++ msg
  | Status.Failed code message =>
      "Failed [" ++ toString code ++ "]: " ++ message

/-- `pub struct User`: `id: u64` as `Nat`, `roles: Vec<String>` as a list
(push appends at the end), `metadata: HashMap<String,String>` as an
association list keyed by string. -/
structure User where
  id : Nat
  name : String
  email : String
  roles : List String
  metadata : List (String × String)
deriving DecidableEq, Repr

/-- `User::new(id, name, email)`: starts with empty roles and metadata. -/
def User.new (id : Nat) (name : String) (email : String) : User :=
  { id := id, name := name, email := email, roles := [], metadata := [] }

/-- `User::add_role(&mut self, role)`: `self.roles.push(role.to_string())`
then returns the same instance; in the value model the updated record is
returned, which is what the `&mut Self` chaining observes. -/
def User.add_role (u : User) (role : String) : User :=
  { u with roles := u.roles ++ [role] }

/-- `User::with_metadata(mut self, key, value)`: inserts into the metadata
map and returns the rebuilt value. HashMap insert replaces an existing key,
otherwise adds the pair. -/
def insertAssoc (m : List (String × String)) (k v : String) :
    List (String × String) :=
  if m.any (fun p => p.1 == k) then
    m.map (fun p => if p.1 == k then (k, v) else p)
  else
    (k, v) :: m

def User.with_metadata (u : User) (key value : String) : User :=
  { u with metadata := insertAssoc u.metadata key value }

/-- The process-wide `GLOBAL_COUNTER: AtomicUsize` state.  `usize` is
modelled as `Nat`; the spec leaves overflow at the representable maximum
unhandled, and no embedded run reaches it. -/
structure AllocState where
  counter : Nat
deriving DecidableEq, Repr

/-- `GLOBAL_COUNTER.fetch_add(1, SeqCst)`: returns the old value and
increments the shared counter; the read-modify-write is indivisible, so a
sequence of allocations is exactly the iteration of this step. -/
def fetchAdd (a : AllocState) : Nat × AllocState :=
  (a.counter, ⟨a.counter + 1⟩)

/-- `InMemoryRepository<T>`: `items: HashMap<u64, T>` as an association
list keyed by `Nat`.  Iteration order of `find_all` is unspecified by the
source (HashMap), so only order-insensitive facts are proved about it. -/
structure InMemoryRepository (T : Type) where
  items : List (Nat × T)
deriving Repr

/-- `InMemoryRepository::new()`: starts empty. -/
def InMemoryRepository.new (T : Type) : InMemoryRepository T := ⟨[]⟩

/-- `HashMap::insert(id, item)`: replaces the value if the key is present,
otherwise adds the entry. -/
def insertHM {T : Type} (m : List (Nat × T)) (k : Nat) (v : T) :
    List (Nat × T) :=
  if m.any (fun p => p.1 == k) then
    m.map (fun p => if p.1 == k then (k, v) else p)
  else
    (k, v) :: m

/-- `fn save(&mut self, item: T)`: mints `id` from the global allocator,
inserts `(id → item)`, returns `Ok(())`.  The step also exposes the minted
identity (the old counter value) so claims about it can be stated; `save`
in the source returns only `Ok(())`. -/
def saveStep {T : Type} (s : InMemoryRepository T) (a : AllocState)
    (item : T) :
    Except String Unit × InMemoryRepository T × AllocState × Nat :=
  let r := fetchAdd a
  (Except.ok (), ⟨insertHM s.items r.1 item⟩, r.2, r.1)

/-- `fn find_by_id(&self, id) -> Option<&T>`: `self.items.get(&id)`.  Pure:
takes the state and returns only the optional value. -/
def find_by_id {T : Type} (s : InMemoryRepository T) (id : Nat) :
    Option T :=
  (s.items.find? (fun p => p.1 == id)).map Prod.snd

/-- `fn find_all(&self) -> Vec<&T>`: every stored value. -/
def find_all {T : Type} (s : InMemoryRepository T) : List T :=
  s.items.map Prod.snd

/-- Default-method `fn count(&self) -> usize { self.find_all().len() }`. -/
def count {T : Type} (s : InMemoryRepository T) : Nat :=
  (find_all s).length

/-- A sequence of `save` calls on one store threading the shared allocator;
returns the final store, the final allocator state, and the minted
identities in call order. -/
def runSaves {T : Type} :
    List T → InMemoryRepository T → AllocState →
    InMemoryRepository T × AllocState × List Nat
  | [], s, a => (s, a, [])
  | item :: rest, s, a =>
      let st := saveStep s a item
      let rec' := runSaves rest st.2.1 st.2.2.1
      (rec'.1, rec'.2.1, st.2.2.2 :: rec'.2.2)

/-! Helper lemmas about the store and the allocator. -/

/-- Inserting under a key strictly above every present key is a plain cons. -/
theorem insertHM_fresh {T : Type} (m : List (Nat × T)) (k : Nat) (v : T)
    (h : ∀ p ∈ m, p.1 < k) : insertHM m k v = (k, v) :: m := by
  have hany : m.any (fun p => p.1 == k) = false := by
    simp only [List.any_eq_false, beq_iff_eq]
    intro p hp
    exact Nat.ne_of_lt (h p hp)
  simp [insertHM, hany]

/-- Running a sequence of saves on a store whose keys all lie below the
counter: the minted identities are `counter, counter+1, …`, the counter
advances by the number of saves, and the map gains exactly the new
entries. -/
theorem runSaves_fresh {T : Type} (L : List T) (m : List (Nat × T)) (c : Nat)
    (hm : ∀ p ∈ m, p.1 < c) :
    runSaves L ⟨m⟩ ⟨c⟩ =
      (⟨((List.range' c L.length).zip L).reverse ++ m⟩,
       ⟨c + L.length⟩, List.range' c L.length) := by
  induction L generalizing m c with
  | nil => simp [runSaves]
  | cons x rest ih =>
      have hstep : saveStep ⟨m⟩ ⟨c⟩ x =
          (Except.ok (), ⟨(c, x) :: m⟩, ⟨c + 1⟩, c) := by
        simp [saveStep, fetchAdd, insertHM_fresh m c x hm]
      have hm' : ∀ p ∈ (c, x) :: m, p.1 < c + 1 := by
        intro p hp
        rcases List.mem_cons.mp hp with h | h
        · simp [h]
        · exact Nat.lt_succ_of_lt (hm p h)
      simp only [runSaves, hstep]
      rw [ih ((c, x) :: m) (c + 1) hm']
      simp [List.range'_succ, List.zip, List.zipWith, Nat.add_comm,
        Nat.add_assoc, Nat.add_left_comm]

/-- After `insert(k, v)` the lookup for `k` finds `(k, v)`, whether or not
`k` was present before (insert replaces). -/
theorem find_insertHM_self {T : Type} (m : List (Nat × T)) (k : Nat) (v : T) :
    (insertHM m k v).find? (fun p => p.1 == k) = some (k, v) := by
  unfold insertHM
  by_cases h : m.any (fun p => p.1 == k) = true
  · simp only [h, if_true]
    induction m with
    | nil => simp at h
    | cons p rest ih =>
        by_cases hp : p.1 == k
        · simp [List.find?, hp]
        · have hr : rest.any (fun q => q.1 == k) = true := by
            simp only [List.any_cons, hp, Bool.false_or] at h
            exact h
          simp only [List.map_cons, if_neg hp, List.find?]
          simp only [hp]
          exact ih hr
  · simp [h, List.find?]

/-! The claims. -/

/-- C1: each `save` mints one identity from the shared `GLOBAL_COUNTER`
allocator via `fetch_add(1)`.  Over any sequence of saves started at
process start (counter zero), the minted identities are strictly
increasing in call order, pairwise distinct, and the first one is zero. -/
theorem c1_identity_allocations_strictly_increasing_unique_from_zero
    {T : Type} (L : List T) :
    (∀ i j vi vj : Nat, i < j →
      ((runSaves L (InMemoryRepository.new T) ⟨0⟩).2.2)[i]? = some vi →
      ((runSaves L (InMemoryRepository.new T) ⟨0⟩).2.2)[j]? = some vj →
      vi < vj) ∧
    ((runSaves L (InMemoryRepository.new T) ⟨0⟩).2.2).Nodup ∧
    (L ≠ [] → ((runSaves L (InMemoryRepository.new T) ⟨0⟩).2.2)[0]?
      = some 0) := by
  have hr := runSaves_fresh L [] 0 (by simp)
  rw [InMemoryRepository.new, hr]
  simp only [← List.range_eq_range']
  refine ⟨?_, List.nodup_range _, ?_⟩
  · intro i j vi vj hij hvi hvj
    rw [List.getElem?_eq_some] at hvi hvj
    obtain ⟨hi, hvi⟩ := hvi
    obtain ⟨hj, hvj⟩ := hvj
    simp only [List.getElem_range] at hvi hvj
    omega
  · intro hL
    have hpos : 0 < L.length := List.length_pos.mpr hL
    exact List.getElem?_range hpos

/-- C1 witness: three saves from process start mint `[0, 1, 2]`; the first
identity is `0` and the first two are strictly ordered. -/
theorem c1_identity_allocations_witness :
    (0 : Nat) < 1 ∧
    ((runSaves [10, 20, 30] (InMemoryRepository.new Nat) ⟨0⟩).2.2).Nodup ∧
    ((runSaves [10, 20, 30] (InMemoryRepository.new Nat) ⟨0⟩).2.2)[0]?
      = some 0 := by
  have h := c1_identity_allocations_strictly_increasing_unique_from_zero
    (L := [10, 20, 30])
  exact ⟨h.1 0 1 0 1 (by decide) (by decide) (by decide), h.2.1,
    h.2.2 (by decide)⟩

/-- C2: saving `i1` then `i2` into a fresh store (shared allocator at any
value `c`) mints the identities `c` and `c + 1`; `find_by_id` on each
minted identity returns the item saved under it, and `count()` is `2`. -/
theorem c2_two_saves_roundtrip_and_count {T : Type} (i1 i2 : T) (c : Nat) :
    (runSaves [i1, i2] (InMemoryRepository.new T) ⟨c⟩).2.2 = [c, c + 1] ∧
    find_by_id (runSaves [i1, i2] (InMemoryRepository.new T) ⟨c⟩).1 c
      = some i1 ∧
    find_by_id (runSaves [i1, i2] (InMemoryRepository.new T) ⟨c⟩).1 (c + 1)
      = some i2 ∧
    count (runSaves [i1, i2] (InMemoryRepository.new T) ⟨c⟩).1 = 2 := by
  have h := runSaves_fresh [i1, i2] [] c (by simp)
  rw [InMemoryRepository.new, h]
  refine ⟨by simp [List.range'], ?_, ?_, by simp [count, find_all]⟩
  · have hne : (c + 1 == c) = false := by simp
    simp [find_by_id, List.range', List.find?, hne]
  · simp [find_by_id, List.range', List.find?]

/-- C3: `process_status` is a total Lean function (hence deterministic) and
returns, in guard order: Pending → "waiting"; Running with progress > 50 →
"almost done"; Running otherwise (including exactly 50) → "in progress";
Completed → "done"; Failed with code < 0 → "critical error"; Failed
otherwise (including zero) → "error". -/
theorem c3_process_status_cases (p : Nat) (msg : String) (code : Int)
    (m : String) :
    process_status Status.Pending = "waiting" ∧
    (50 < p → process_status (Status.Running p) = "almost done") ∧
    (p ≤ 50 → process_status (Status.Running p) = "in progress") ∧
    process_status (Status.Running 50) = "in progress" ∧
    process_status (Status.Completed msg) = "done" ∧
    (code < 0 → process_status (Status.Failed code m) = "critical error") ∧
    (0 ≤ code → process_status (Status.Failed code m) = "error") := by
  refine ⟨rfl, ?_, ?_, rfl, rfl, ?_, ?_⟩
  · intro h
    simp [process_status, h]
  · intro h
    simp [process_status, Nat.not_lt.mpr h]
  · intro h
    simp [process_status, h]
  · intro h
    simp [process_status, not_lt.mpr h]

/-- C3 witness: the six sample classifications of the spec, obtained from
the case theorem at concrete payloads. -/
theorem c3_process_status_witness :
    process_status (Status.Running 51) = "almost done" ∧
    process_status (Status.Running 50) = "in progress" ∧
    process_status (Status.Failed (-1) "x") = "critical error" ∧
    process_status (Status.Failed 0 "x") = "error" ∧
    process_status Status.Pending = "waiting" ∧
    process_status (Status.Completed "ok") = "done" := by
  have h := c3_process_status_cases 51 "ok" (-1) "x"
  have h2 := c3_process_status_cases 50 "ok" 0 "x"
  exact ⟨h.2.1 (by decide), h2.2.2.1 (by decide), h.2.2.2.2.2.1 (by decide),
    h2.2.2.2.2.2.2 (by decide), h.1, h.2.2.2.2.1⟩

/-- C4: the `Display` rendering produces exactly the literal forms
`"Pending"`, `"Running: {p}%"`, `"Completed: {msg}"`,
`"Failed [{code}]: {message}"`, and in particular `Running {progress: 42}`
renders as `"Running: 42%"`. -/
theorem c4_status_display_exact_forms (p : Nat) (msg : String) (code : Int)
    (m : String) :
    statusDisplay Status.Pending = "Pending" ∧
    statusDisplay (Status.Running p) = "Running: " ++ toString p ++ "%" ∧
    statusDisplay (Status.Completed msg) = "Completed: " ++ msg ∧
    statusDisplay (Status.Failed code m)
      = "Failed [" ++ toString code ++ "]: " ++ m ∧
    statusDisplay (Status.Running 42) = "Running: 42%" ∧
    statusDisplay (Status.Failed (-7) "boom") = "Failed [-7]: boom" := by
  exact ⟨rfl, rfl, rfl, rfl, by decide, by decide⟩

/-- C5: on any store reached by saves from a fresh store, `count()` equals
the length of `find_all()` (it is defined as that length) and equals the
number of successful save calls; and each save on a state whose keys all
lie below the allocator counter (the allocator uniqueness guarantee) grows
the map by exactly one entry. -/
theorem c5_count_equals_saves {T : Type} (L : List T) (c : Nat) :
    count (runSaves L (InMemoryRepository.new T) ⟨c⟩).1 = L.length ∧
    count (runSaves L (InMemoryRepository.new T) ⟨c⟩).1 =
      (find_all (runSaves L (InMemoryRepository.new T) ⟨c⟩).1).length ∧
    (∀ (s : InMemoryRepository T) (a : AllocState) (x : T),
      (∀ p ∈ s.items, p.1 < a.counter) →
      ((saveStep s a x).2.1).items.length = s.items.length + 1) := by
  have hr := runSaves_fresh L [] c (by simp)
  rw [InMemoryRepository.new, hr]
  refine ⟨?_, rfl, ?_⟩
  · simp [count, find_all, List.length_zip, List.length_range']
  · intro s a x hfresh
    cases s with
    | mk m =>
        cases a with
        | mk ct =>
            simp [saveStep, fetchAdd, insertHM_fresh m ct x hfresh]

/-- C5 witness: two saves give count 2, and a save on the empty store at
counter 0 grows the map from 0 to 1 entries. -/
theorem c5_count_equals_saves_witness :
    count (runSaves [7, 8] (InMemoryRepository.new Nat) ⟨5⟩).1 = 2 ∧
    ((saveStep (InMemoryRepository.new Nat) ⟨0⟩ 9).2.1).items.length =
      (InMemoryRepository.new Nat).items.length + 1 := by
  have h := c5_count_equals_saves [7, 8] 5
  exact ⟨h.1, h.2.2 (InMemoryRepository.new Nat) ⟨0⟩ 9 (by simp
    [InMemoryRepository.new])⟩

/-- C6: `save` on the in-memory backend returns `Ok(())` for every item
and every store and allocator state: it never produces an error value. -/
theorem c6_save_never_errors {T : Type} (s : InMemoryRepository T)
    (a : AllocState) (item : T) :
    (saveStep s a item).1 = Except.ok () := rfl

/-- C7: on a store reached by saves from a fresh store, `find_by_id` on any
identity that was never minted for that store returns `none` — the explicit
absence value, not an error.  `find_by_id` is embedded as a pure function
of the state (it returns only the optional value and no new state), which
is the no-side-effect reading of `&self` in the source. -/
theorem c7_find_missing_id_returns_none {T : Type} (L : List T) (c : Nat)
    (id : Nat)
    (h : id ∉ (runSaves L (InMemoryRepository.new T) ⟨c⟩).2.2) :
    find_by_id (runSaves L (InMemoryRepository.new T) ⟨c⟩).1 id = none := by
  have hr := runSaves_fresh L [] c (by simp)
  rw [InMemoryRepository.new] at *
  rw [hr] at h ⊢
  simp only at h
  have hfind : (((List.range' c L.length).zip L).reverse ++ []).find?
      (fun p : Nat × T => p.1 == id) = none := by
    rw [List.find?_eq_none]
    intro p hp
    simp only [List.append_nil, List.mem_reverse] at hp
    have h1 : p.1 ∈ List.range' c L.length := (List.of_mem_zip hp).1
    simp only [beq_iff_eq]
    intro hEq
    exact h (hEq ▸ h1)
  simp only [find_by_id, hfind, Option.map_none']

/-- C7 witness: a store holding one item saved at counter 0 returns `none`
for the never-minted identity 7. -/
theorem c7_find_missing_id_witness :
    find_by_id (runSaves [5] (InMemoryRepository.new Nat) ⟨0⟩).1 7
      = none :=
  c7_find_missing_id_returns_none [5] 0 7 (by decide)

/-- C8: `User::new` starts with the given identity, name and contact and
empty roles and metadata; `add_role` appends exactly one label at the end,
leaves every other field unchanged, and (in the value reading of the
`&mut Self` return) yields the same instance for chaining; the spec's
chain produces roles `["admin", "user"]` in insertion order. -/
theorem c8_record_builder_roles_order (id : Nat) (nm em : String)
    (u : User) (r : String) :
    (User.new id nm em).id = id ∧
    (User.new id nm em).name = nm ∧
    (User.new id nm em).email = em ∧
    (User.new id nm em).roles = [] ∧
    (User.new id nm em).metadata = [] ∧
    (u.add_role r).roles = u.roles ++ [r] ∧
    (u.add_role r).id = u.id ∧
    (u.add_role r).name = u.name ∧
    (u.add_role r).email = u.email ∧
    (u.add_role r).metadata = u.metadata ∧
    (((User.new 1 "Alice" "a@x.com").add_role "admin").add_role
      "user").roles = ["admin", "user"] :=
  ⟨rfl, rfl, rfl, rfl, rfl, rfl, rfl, rfl, rfl, rfl, rfl⟩

/-- C9: the key under which `save` stores an item is the allocator's
current counter, computed without reading the item at all (the minted key
is the same whatever `User` is saved, so it is independent of the record's
`id` field), and the stored value is the item passed in with every field
unchanged.  Concretely, saving a record whose own `id` field is 99 into a
fresh store at counter 0 stores it under key 0 ≠ 99 and the retrieved
record still has `id = 99`. -/
theorem c9_save_key_independent_of_item_id (u : User)
    (s : InMemoryRepository User) (a : AllocState) :
    (saveStep s a u).2.2.2 = a.counter ∧
    (∀ v : User, (saveStep s a v).2.2.2 = (saveStep s a u).2.2.2) ∧
    find_by_id (saveStep s a u).2.1 a.counter = some u ∧
    (saveStep (InMemoryRepository.new User) ⟨0⟩
        (User.new 99 "Nina" "n@x.com")).2.2.2 = 0 ∧
    (0 : Nat) ≠ 99 ∧
    find_by_id (saveStep (InMemoryRepository.new User) ⟨0⟩
        (User.new 99 "Nina" "n@x.com")).2.1 0
      = some (User.new 99 "Nina" "n@x.com") ∧
    (User.new 99 "Nina" "n@x.com").id = 99 := by
  refine ⟨rfl, fun v => rfl, ?_, rfl, by decide, by rfl, rfl⟩
  have hf := find_insertHM_self s.items a.counter u
  simp [saveStep, fetchAdd, find_by_id, hf]

/-- C10: `progress` is `u8`, so every value up to 255 is representable; for
every representable progress above 50 — including values above 100 —
classification returns "almost done" and display renders
`"Running: {p}%"`; neither function checks a 0–100 range. -/
theorem c10_progress_u8_full_range (p : Nat) (hrange : p ≤ 255)
    (hgt : 50 < p) :
    process_status (Status.Running p) = "almost done" ∧
    statusDisplay (Status.Running p)
      = "Running: " ++ toString p ++ "%" := by
  constructor
  · simp [process_status, hgt]
  · rfl

/-- C10 witness: progress 200 (beyond the nominal 0–100 range but within
u8) is classified "almost done" and rendered `"Running: 200%"`. -/
theorem c10_progress_u8_witness :
    (200 : Nat) ≤ 255 ∧ 50 < 200 ∧
    process_status (Status.Running 200) = "almost done" ∧
    statusDisplay (Status.Running 200) = "Running: 200%" := by
  have h := c10_progress_u8_full_range 200 (by decide) (by decide)
  exact ⟨by decide, by decide, h.1, h.2.trans (by decide)⟩

end RustSample
